import Mathlib

/-!
Shallow embedding of `src/script.js` (VoiceScrollController), in its two
observed variants (variant A: first copy of the file, which has an extra
`stop` voice command, extra noise words and a fully clamped `smoothScroll`;
variant B: second copy).  JS strings are modelled as Lean `String`s
(`List Char` under the hood); JS numbers that hold millisecond timestamps,
pixel offsets and durations are modelled as `Int`; the regex `\s+` split,
`trim`, `toLowerCase` and the word-boundary test `\b<cmd>\b` are modelled
character by character below.
-/

namespace VoiceControl

/-- Whitespace characters recognised by the JS regex class `\s` (restricted
to the ASCII whitespace that can occur in a speech transcript). -/
def isWs (c : Char) : Bool :=
  c = ' ' || c = '\t' || c = '\n' || c = '\r'

/-- Model of `String.prototype.toLowerCase` (ASCII case folding; command and
noise words are all ASCII). -/
def jsLower (s : List Char) : List Char :=
  s.map Char.toLower

/-- Model of `String.prototype.trim`: strip leading and trailing whitespace. -/
def jsTrim (s : List Char) : List Char :=
  (((s.dropWhile isWs).reverse).dropWhile isWs).reverse

/-- The next character continues a whitespace separator run. -/
def sepContinues : List Char → Bool
  | [] => false
  | c :: _ => isWs c

/-- Extend the leftmost token with one character. -/
def consHead (c : Char) : List (List Char) → List (List Char)
  | [] => [[c]]
  | t :: ts => (c :: t) :: ts

/-- Model of `str.split(/\s+/)`: split at every maximal run of whitespace.
An empty string yields the single empty token `[""]`; a leading (resp.
trailing) whitespace run yields a leading (resp. trailing) empty token,
exactly as in JS.  Recursion from the right: a whitespace character whose
right neighbour is not whitespace (or that ends the string) is the last
character of a separator run and opens a fresh empty token on its left. -/
def jsSplitWs : List Char → List (List Char)
  | [] => [[]]
  | c :: cs =>
    if isWs c then
      (if sepContinues cs then jsSplitWs cs else [] :: jsSplitWs cs)
    else
      consHead c (jsSplitWs cs)

/-- The token list the `cleanTranscript` filter runs over:
`transcript.toLowerCase().trim().split(/\s+/)`. -/
def tokensOf (t : String) : List String :=
  (jsSplitWs (jsTrim (jsLower t.data))).map String.mk

/-- `this.noiseWords` of variant A (`src/script.js` line 26). -/
def noiseWordsA : List String :=
  ["uh", "um", "like", "you know", "so",
   "ohhh", "heyy", "haaaa", "shhshshh", "the", "a", "an"]

/-- `this.noiseWords` of variant B (`src/script.js` line 391). -/
def noiseWordsB : List String :=
  ["uh", "um", "like", "you know", "so",
   "ohhh", "heyy", "haaaa", "shhshshh"]

/-- `cleanTranscript` of variant A (line 167): lower-case, trim, split on
whitespace runs, keep tokens that are non-empty and not noise words. -/
def cleanTranscriptA (t : String) : List String :=
  (tokensOf t).filter (fun w => w.length > 0 && !(noiseWordsA.contains w))

/-- `cleanTranscript` of variant B (line 521): same pipeline but the filter
only drops noise words (no emptiness check). -/
def cleanTranscriptB (t : String) : List String :=
  (tokensOf t).filter (fun w => !(noiseWordsB.contains w))

/-- `Object.keys(this.commands)` of variant A, in declaration order. -/
def commandNamesA : List String :=
  ["up", "down", "top", "bottom", "fly", "jump", "stop"]

/-- `Object.keys(this.commands)` of variant B (no `stop` command). -/
def commandNamesB : List String :=
  ["up", "down", "top", "bottom", "fly", "jump"]

/-- JS regex word character class `\w` = `[A-Za-z0-9_]`. -/
def isWordChar (c : Char) : Bool :=
  c.isAlphanum || c = '_'

/-- The command name occurs (case-insensitively) in `w` starting at index `i`. -/
def matchAt (cmd w : List Char) (i : Nat) : Bool :=
  List.isPrefixOf cmd (jsLower (w.drop i))

/-- `\b` holds on both sides of the occurrence `[i, i + len)`.  All command
names consist of word characters, so for them `\b` before (after) the
occurrence means: at the string edge, or next to a non-word character. -/
def boundaryAt (w : List Char) (i len : Nat) : Bool :=
  (decide (i = 0) || !(isWordChar (w.getD (i - 1) ' '))) &&
  (decide (w.length ≤ i + len) || !(isWordChar (w.getD (i + len) ' ')))

/-- Model of `new RegExp('\\b' + cmd + '\\b', 'i').test(word)` for a command
name made of word characters. -/
def reTestWB (cmd w : String) : Bool :=
  (List.range (w.data.length + 1)).any
    (fun i => matchAt cmd.data w.data i && boundaryAt w.data i cmd.data.length)

/-- `findMatchingCommand` of variant A (line 185): first declared command
whose boundary pattern matches the word. -/
def findMatchingCommandA (w : String) : Option String :=
  commandNamesA.find? (fun c => reTestWB c w)

/-- `findMatchingCommand` of variant B (line 541). -/
def findMatchingCommandB (w : String) : Option String :=
  commandNamesB.find? (fun c => reTestWB c w)

/-- `smoothScroll` of variant A (line 223): the applied scroll top is
`Math.max(0, Math.min(position, document.body.scrollHeight))`.
`scrollHeight` is the document's maximum scroll extent. -/
def smoothScrollA (position scrollHeight : Int) : Int :=
  max 0 (min position scrollHeight)

/-- `smoothScroll` of variant B (line 570): the applied scroll top is
`Math.max(0, position)` — no upper clamp. -/
def smoothScrollB (position : Int) : Int :=
  max 0 position

/-- The constructed `this.config`. -/
structure Config where
  idleDuration : Int
  debounceDelay : Int
  scrollAmount : Int
  lang : String
deriving Repr, DecidableEq

/-- The caller-supplied `config` object: each key either absent (`none`) or
present with a value. -/
structure ConfigInput where
  idleDuration : Option Int
  debounceDelay : Option Int
  scrollAmount : Option Int
  lang : Option String
deriving Repr, DecidableEq

/-- JS `config.x || default` for a numeric key: an absent key or a falsy
value (`0`) yields the default. -/
def jsOrNum (v : Option Int) (d : Int) : Int :=
  match v with
  | some x => if x = 0 then d else x
  | none => d

/-- JS `config.x || default` for a string key: absent or falsy (`""`)
yields the default. -/
def jsOrStr (v : Option String) (d : String) : String :=
  match v with
  | some x => if x = "" then d else x
  | none => d

/-- The constructor's config merge (lines 2–9 / 362–370): the object literal
first writes each key as `config.key || default`, then `...config` spreads
every key the caller supplied back over those, so a supplied key always ends
up with the caller's value. -/
def buildConfig (inp : ConfigInput) : Config :=
  let base : Config :=
    { idleDuration := jsOrNum inp.idleDuration 10000
      debounceDelay := jsOrNum inp.debounceDelay 500
      scrollAmount := jsOrNum inp.scrollAmount 100
      lang := jsOrStr inp.lang "en-US" }
  { idleDuration := (inp.idleDuration).getD base.idleDuration
    debounceDelay := (inp.debounceDelay).getD base.debounceDelay
    scrollAmount := (inp.scrollAmount).getD base.scrollAmount
    lang := (inp.lang).getD base.lang }

/-- The controller's mutable state: `this.state` (`isListening`,
`lastCommand`, `lastCommandTime`), the recognition handle (`this.recognition`,
as a liveness flag), and the idle-timer machinery.  `idleHandle` is
`this.idleTimeout` (the stored timer id or `null`); `liveTimers` is the set of
timers the host still has scheduled (ids, in scheduling order), so that "at
most one outstanding timer" is a provable fact rather than a modelling
assumption; `nextTimerId` generates fresh ids. -/
structure CState where
  isListening : Bool
  lastCommand : String
  lastCommandTime : Int
  recognitionLive : Bool
  idleHandle : Option Nat
  liveTimers : List Nat
  nextTimerId : Nat
deriving Repr, DecidableEq

/-- State after construction (lines 17–24): inactive, no command yet, no
recognition handle, no timer. -/
def initState : CState :=
  { isListening := false, lastCommand := "", lastCommandTime := 0,
    recognitionLive := false, idleHandle := none, liveTimers := [],
    nextTimerId := 0 }

/-- `clearIdleTimeout` (line 323): if a timer id is stored, cancel that host
timer and null the handle. -/
def clearIdleTimeout (s : CState) : CState :=
  match s.idleHandle with
  | some i => { s with liveTimers := s.liveTimers.erase i, idleHandle := none }
  | none => s

/-- The `setTimeout` half of `resetIdleTimeout` (line 314): schedule a fresh
timer and store its id. -/
def armIdleTimeout (s : CState) : CState :=
  { s with liveTimers := s.liveTimers ++ [s.nextTimerId],
           idleHandle := some s.nextTimerId,
           nextTimerId := s.nextTimerId + 1 }

/-- `resetIdleTimeout` (line 312): always cancel first, then schedule. -/
def resetIdleTimeout (s : CState) : CState :=
  armIdleTimeout (clearIdleTimeout s)

/-- `stopRecognition` (line 266): release the recognition handle if any,
cancel the idle timer, mark inactive. -/
def stopRecognition (s : CState) : CState :=
  { clearIdleTimeout { s with recognitionLive := false } with
    isListening := false }

/-- `canExecuteCommand` (lines 191 / 548): the matched command passes the
debounce gate iff it differs from `lastCommand` or strictly more than
`debounceDelay` ms elapsed since `lastCommandTime`. -/
def canExecuteCommand (cfg : Config) (s : CState) (cmd : String) (now : Int) : Bool :=
  cmd != s.lastCommand || decide (now - s.lastCommandTime > cfg.debounceDelay)

/-- Effect of `this.commands[cmd].action()` on the controller state.  Scroll
actions only talk to `window` and never touch controller state; variant A's
`stop` action calls `stopRecognition`. -/
def runActionA (s : CState) (cmd : String) : CState :=
  if cmd = "stop" then stopRecognition s else s

/-- Variant B has no `stop` command; no action touches controller state. -/
def runActionB (s : CState) (_cmd : String) : CState :=
  s

/-- `executeCommand` of variant A (line 201): run the action inside
`try/catch`; `actionThrows` says whether the action throws.  On a throw the
`catch` only logs, so the state is returned unchanged and nothing executes;
on success `lastCommand` and `lastCommandTime` are updated (these writes sit
after the action call) and the execution is recorded in the returned log. -/
def executeCommandA (s : CState) (cmd : String) (actionThrows : Bool) (now : Int) :
    CState × List String :=
  if actionThrows then (s, [])
  else ({ runActionA s cmd with lastCommand := cmd, lastCommandTime := now }, [cmd])

/-- `executeCommand` of variant B (line 558). -/
def executeCommandB (s : CState) (cmd : String) (actionThrows : Bool) (now : Int) :
    CState × List String :=
  if actionThrows then (s, [])
  else ({ runActionB s cmd with lastCommand := cmd, lastCommandTime := now }, [cmd])

/-- `processCommand` of variant A (line 175): match, gate, execute; an
unmatched or debounced word is only logged. -/
def processCommandA (cfg : Config) (s : CState) (w : String) (now : Int)
    (actionThrows : Bool) : CState × List String :=
  match findMatchingCommandA w with
  | none => (s, [])
  | some cmd =>
    if canExecuteCommand cfg s cmd now then executeCommandA s cmd actionThrows now
    else (s, [])

/-- `processCommand` of variant B (line 529). -/
def processCommandB (cfg : Config) (s : CState) (w : String) (now : Int)
    (actionThrows : Bool) : CState × List String :=
  match findMatchingCommandB w with
  | none => (s, [])
  | some cmd =>
    if canExecuteCommand cfg s cmd now then executeCommandB s cmd actionThrows now
    else (s, [])

/-- `cleanedWords.forEach(word => this.processCommand(word))` (line 164):
left-to-right over the words, each word carrying the `Date.now()` value and
the throw behaviour of its own action call; the logs concatenate. -/
def processWordsA (cfg : Config) : CState → List (String × Int × Bool) → CState × List String
  | s, [] => (s, [])
  | s, (w, now, thr) :: rest =>
    let p := processCommandA cfg s w now thr
    let q := processWordsA cfg p.1 rest
    (q.1, p.2 ++ q.2)

/-- Variant B's forEach loop (line 518). -/
def processWordsB (cfg : Config) : CState → List (String × Int × Bool) → CState × List String
  | s, [] => (s, [])
  | s, (w, now, thr) :: rest =>
    let p := processCommandB cfg s w now thr
    let q := processWordsB cfg p.1 rest
    (q.1, p.2 ++ q.2)

/-- Pair each cleaned word with its clock value and throw flag, supplied by
the environment `env` (indexed by word position). -/
def withEnv (ws : List String) (env : Nat → Int × Bool) : List (String × Int × Bool) :=
  ws.enum.map (fun p => (p.2, (env p.1).1, (env p.1).2))

/-- `handleRecognitionResult` of variant A (line 154): reset the idle timer,
clean the transcript, process every cleaned word. -/
def handleRecognitionResultA (cfg : Config) (s : CState) (t : String)
    (env : Nat → Int × Bool) : CState × List String :=
  processWordsA cfg (resetIdleTimeout s) (withEnv (cleanTranscriptA t) env)

/-- `handleRecognitionResult` of variant B (line 512). -/
def handleRecognitionResultB (cfg : Config) (s : CState) (t : String)
    (env : Nat → Int × Bool) : CState × List String :=
  processWordsB cfg (resetIdleTimeout s) (withEnv (cleanTranscriptB t) env)

/-- `handleRecognitionError` of variant A (line 230): `not-allowed`,
`permission-denied` and `audio-capture` alert and stop; `no-speech`,
`network` and every other kind only log. -/
def handleRecognitionErrorA (s : CState) (kind : String) : CState :=
  if kind = "not-allowed" || kind = "permission-denied" then stopRecognition s
  else if kind = "no-speech" then s
  else if kind = "audio-capture" then stopRecognition s
  else if kind = "network" then s
  else s

/-- `handleRecognitionError` of variant B (line 580): only `not-allowed`
stops; every other kind only logs. -/
def handleRecognitionErrorB (s : CState) (kind : String) : CState :=
  if kind = "not-allowed" then stopRecognition s else s

/-- `handleRecognitionEnd` (identical in both variants, lines 255 / 592):
while still listening, restart the session (`recognition.start()`, which
changes no controller state on success); if the restart throws, fall back to
`stopRecognition`.  Not listening: nothing happens. -/
def handleRecognitionEnd (s : CState) (restartThrows : Bool) : CState :=
  if s.isListening then
    (if restartThrows then stopRecognition s else s)
  else s

/-- `startRecognition` of variant A (line 120): construct the recognition
session, call `start()` (which may throw: the `catch` routes the exception —
whose `error` field is undefined, hence kind `Unknown error` — to
`handleRecognitionError`, a log-only branch), then mark listening, show the
commands dialog (`window.confirm`; on Cancel the user immediately stops),
and finally arm the idle timer. -/
def startRecognition (s : CState) (startThrows : Bool) (userAccepts : Bool) : CState :=
  let s1 := { s with recognitionLive := true }
  if startThrows then handleRecognitionErrorA s1 "Unknown error"
  else
    let s2 := { s1 with isListening := true }
    let s3 := if userAccepts then s2 else stopRecognition s2
    resetIdleTimeout s3

/-- External events driving the controller: a start attempt (with whether
`recognition.start()` throws and whether the user accepts the commands
dialog), a result notification (transcript plus per-word clock/throw
environment), an error notification, an end-of-session notification (with
whether the restart throws), an explicit stop, and the firing of the oldest
live idle timer. -/
inductive Event where
  | start (startThrows : Bool) (userAccepts : Bool)
  | result (t : String) (env : List (Int × Bool))
  | error (kind : String)
  | ended (restartThrows : Bool)
  | stop
  | fire
deriving Repr

/-- The host fires a scheduled timer: only a still-live timer can fire; the
host removes it from its table and then runs the callback
(line 315: `stopRecognition`). -/
def fireTimer (s : CState) : CState :=
  match s.liveTimers with
  | [] => s
  | i :: _ => stopRecognition { s with liveTimers := s.liveTimers.erase i }

/-- One event-loop step of the controller (variant A). -/
def step (cfg : Config) (s : CState) : Event → CState
  | Event.start th ua => startRecognition s th ua
  | Event.result t env =>
    (handleRecognitionResultA cfg s t (fun i => env.getD i (0, false))).1
  | Event.error k => handleRecognitionErrorA s k
  | Event.ended th => handleRecognitionEnd s th
  | Event.stop => stopRecognition s
  | Event.fire => fireTimer s

/-- Run an event trace from the constructed state. -/
def run (cfg : Config) (evs : List Event) : CState :=
  evs.foldl (step cfg) initState

/-- One step of the controller together with its (read-only) configuration:
`this.config` is read by the handlers and written by none of them. -/
def stepWithConfig (p : Config × CState) (e : Event) : Config × CState :=
  (p.1, step p.1 p.2 e)

/-- The timer invariant: no live host timer, or exactly one, and then the
stored handle refers to it. -/
def timerInv (s : CState) : Prop :=
  s.liveTimers = [] ∨ ∃ i, s.liveTimers = [i] ∧ s.idleHandle = some i

/-- The configuration built at `initVoiceControl` (line 348). -/
def cfgEx : Config :=
  { idleDuration := 15000, debounceDelay := 500, scrollAmount := 100, lang := "en-US" }

/-- A sample caller configuration object exercising supplied keys (one of
them falsy) and an absent key. -/
def inpEx : ConfigInput :=
  { idleDuration := some 0, debounceDelay := some 250, scrollAmount := none,
    lang := some "de-DE" }

/-- A sample state in the Listening phase (as after a successful start). -/
def listeningState : CState :=
  { isListening := true, lastCommand := "", lastCommandTime := 0,
    recognitionLive := true, idleHandle := some 0, liveTimers := [0],
    nextTimerId := 1 }

/-! ### Helper lemmas -/

theorem find?_first_split {α : Type} (p : α → Bool) :
    ∀ (l : List α) (a : α), l.find? p = some a →
      p a = true ∧ ∃ l1 l2, l = l1 ++ a :: l2 ∧ ∀ x ∈ l1, p x = false := by
  intro l
  induction l with
  | nil => intro a h; simp at h
  | cons x xs ih =>
    intro a h
    cases hx : p x with
    | true =>
      rw [List.find?_cons_of_pos _ hx] at h
      injection h with h2
      subst h2
      exact ⟨hx, [], xs, rfl, by intro y hy; cases hy⟩
    | false =>
      rw [List.find?_cons_of_neg _ (by simp [hx])] at h
      obtain ⟨hpa, l1, l2, hsplit, hall⟩ := ih a h
      refine ⟨hpa, x :: l1, l2, by rw [hsplit]; rfl, ?_⟩
      intro y hy
      rcases List.mem_cons.mp hy with hy | hy
      · subst hy; exact hx
      · exact hall y hy

theorem mem_jsSplitWs_no_ws :
    ∀ (l w : List Char), w ∈ jsSplitWs l → ∀ c ∈ w, isWs c = false := by
  intro l
  induction l with
  | nil =>
    intro w hw c hc
    simp [jsSplitWs] at hw
    subst hw
    cases hc
  | cons x xs ih =>
    intro w hw c hc
    unfold jsSplitWs at hw
    cases hx : isWs x with
    | true =>
      rw [hx] at hw
      simp only [if_pos] at hw
      by_cases hs : sepContinues xs = true
      · rw [if_pos hs] at hw
        exact ih w hw c hc
      · rw [if_neg hs] at hw
        rcases List.mem_cons.mp hw with rfl | hw
        · cases hc
        · exact ih w hw c hc
    | false =>
      rw [hx] at hw
      simp only [Bool.false_eq_true, if_false] at hw
      cases hr : jsSplitWs xs with
      | nil =>
        rw [hr] at hw
        simp [consHead] at hw
        subst hw
        rcases List.mem_cons.mp hc with rfl | hc
        · exact hx
        · cases hc
      | cons t ts =>
        rw [hr] at hw
        simp only [consHead] at hw
        rcases List.mem_cons.mp hw with rfl | hw
        · rcases List.mem_cons.mp hc with rfl | hc
          · exact hx
          · exact ih t (by rw [hr]; exact List.mem_cons_self t ts) c hc
        · exact ih w (by rw [hr]; exact List.mem_cons_of_mem t hw) c hc

theorem foldl_stepWithConfig_fst (evs : List Event) :
    ∀ (cfg : Config) (s : CState), (evs.foldl stepWithConfig (cfg, s)).1 = cfg := by
  induction evs with
  | nil => intro cfg s; rfl
  | cons e rest ih => intro cfg s; exact ih cfg (step cfg s e)

theorem timerInv_ext (s s' : CState) (h1 : s'.liveTimers = s.liveTimers)
    (h2 : s'.idleHandle = s.idleHandle) (h : timerInv s) : timerInv s' := by
  unfold timerInv at h ⊢
  rw [h1, h2]
  exact h

theorem clearIdleTimeout_of_inv (s : CState) (h : timerInv s) :
    (clearIdleTimeout s).liveTimers = [] ∧ (clearIdleTimeout s).idleHandle = none := by
  rcases h with h | ⟨i, h1, h2⟩
  · unfold clearIdleTimeout
    cases hh : s.idleHandle with
    | none => exact ⟨h, hh⟩
    | some j => simp [h]
  · unfold clearIdleTimeout
    rw [h2]
    simp [h1]

theorem timerInv_reset (s : CState) (h : timerInv s) : timerInv (resetIdleTimeout s) := by
  obtain ⟨h1, _⟩ := clearIdleTimeout_of_inv s h
  unfold resetIdleTimeout armIdleTimeout
  exact Or.inr ⟨(clearIdleTimeout s).nextTimerId, by simp [h1], rfl⟩

theorem timerInv_stop (s : CState) (h : timerInv s) :
    timerInv (stopRecognition s) ∧ (stopRecognition s).liveTimers = [] := by
  have h' : timerInv { s with recognitionLive := false } :=
    timerInv_ext _ s rfl rfl h
  obtain ⟨h1, _⟩ := clearIdleTimeout_of_inv _ h'
  exact ⟨Or.inl h1, h1⟩

theorem timerInv_executeA (s : CState) (cmd : String) (thr : Bool) (now : Int)
    (h : timerInv s) : timerInv (executeCommandA s cmd thr now).1 := by
  unfold executeCommandA
  cases thr with
  | true => exact h
  | false =>
    simp only [Bool.false_eq_true, if_false]
    refine timerInv_ext _ (runActionA s cmd) rfl rfl ?_
    unfold runActionA
    by_cases hc : cmd = "stop"
    · rw [if_pos hc]
      exact (timerInv_stop s h).1
    · rw [if_neg hc]
      exact h

theorem timerInv_processCommandA (cfg : Config) (w : String) (now : Int) (thr : Bool)
    (s : CState) (h : timerInv s) : timerInv (processCommandA cfg s w now thr).1 := by
  unfold processCommandA
  cases hf : findMatchingCommandA w with
  | none => exact h
  | some cmd =>
    show timerInv (if canExecuteCommand cfg s cmd now = true then
        executeCommandA s cmd thr now else (s, [])).1
    cases hc : canExecuteCommand cfg s cmd now with
    | true =>
      rw [if_pos rfl]
      exact timerInv_executeA s cmd thr now h
    | false =>
      rw [if_neg (by simp)]
      exact h

theorem timerInv_processWordsA (cfg : Config) :
    ∀ (l : List (String × Int × Bool)) (s : CState), timerInv s →
      timerInv (processWordsA cfg s l).1 := by
  intro l
  induction l with
  | nil => intro s h; exact h
  | cons p rest ih =>
    intro s h
    obtain ⟨w, now, thr⟩ := p
    exact ih (processCommandA cfg s w now thr).1
      (timerInv_processCommandA cfg w now thr s h)

theorem timerInv_resultA (cfg : Config) (s : CState) (t : String)
    (env : Nat → Int × Bool) (h : timerInv s) :
    timerInv (handleRecognitionResultA cfg s t env).1 := by
  unfold handleRecognitionResultA
  exact timerInv_processWordsA cfg _ _ (timerInv_reset s h)

theorem timerInv_errorA (s : CState) (k : String) (h : timerInv s) :
    timerInv (handleRecognitionErrorA s k) := by
  unfold handleRecognitionErrorA
  split
  · exact (timerInv_stop s h).1
  · split
    · exact h
    · split
      · exact (timerInv_stop s h).1
      · split
        · exact h
        · exact h

theorem timerInv_end (s : CState) (th : Bool) (h : timerInv s) :
    timerInv (handleRecognitionEnd s th) := by
  unfold handleRecognitionEnd
  split
  · split
    · exact (timerInv_stop s h).1
    · exact h
  · exact h

theorem timerInv_start (s : CState) (th ua : Bool) (h : timerInv s) :
    timerInv (startRecognition s th ua) := by
  have h1 : timerInv { s with recognitionLive := true } :=
    timerInv_ext _ s rfl rfl h
  have h2 : timerInv { s with recognitionLive := true, isListening := true } :=
    timerInv_ext _ s rfl rfl h
  cases th with
  | true =>
    show timerInv (handleRecognitionErrorA { s with recognitionLive := true } "Unknown error")
    exact timerInv_errorA _ _ h1
  | false =>
    show timerInv (resetIdleTimeout (if ua = true then
        { s with recognitionLive := true, isListening := true }
      else stopRecognition { s with recognitionLive := true, isListening := true }))
    refine timerInv_reset _ ?_
    split
    · exact h2
    · exact (timerInv_stop _ h2).1

theorem timerInv_fire (s : CState) (h : timerInv s) :
    timerInv (fireTimer s) := by
  rcases h with h | ⟨i, h1, h2⟩
  · unfold fireTimer
    rw [h]
    exact Or.inl h
  · unfold fireTimer
    rw [h1]
    show timerInv (stopRecognition { s with liveTimers := [i].erase i })
    have he : [i].erase i = ([] : List Nat) := by simp
    rw [he]
    exact (timerInv_stop _ (Or.inl rfl)).1

theorem timerInv_step (cfg : Config) (s : CState) (e : Event) (h : timerInv s) :
    timerInv (step cfg s e) := by
  cases e with
  | start th ua => exact timerInv_start s th ua h
  | result t env => exact timerInv_resultA cfg s t _ h
  | error k => exact timerInv_errorA s k h
  | ended th => exact timerInv_end s th h
  | stop => exact (timerInv_stop s h).1
  | fire => exact timerInv_fire s h

theorem timerInv_run (cfg : Config) (evs : List Event) : timerInv (run cfg evs) := by
  unfold run
  have key : ∀ (l : List Event) (s : CState), timerInv s →
      timerInv (l.foldl (step cfg) s) := by
    intro l
    induction l with
    | nil => intro s h; exact h
    | cons e rest ih => intro s h; exact ih (step cfg s e) (timerInv_step cfg s e h)
  exact key evs initState (Or.inl rfl)

/-! ### Claim theorems -/

/-- **C1** counterexample: the claim says both variants clamp the applied
position into `[0, maxScrollExtent]`.  With a document whose maximum scroll
extent (`document.body.scrollHeight`) is `1000`, requesting position `2000`
makes variant B apply `2000` — beyond the extent — while variant A applies
`1000`.  So the upper clamp fails in variant B. -/
theorem smoothScroll_not_clamped_above_cex :
    smoothScrollB 2000 = 2000 ∧ smoothScrollA 2000 1000 = 1000 ∧
    ¬ smoothScrollB 2000 ≤ 1000 := by decide

/-- **C1** (amended): variant A clamps the requested position into
`[0, scrollHeight]` (a negative target yields `0`, a target beyond the
extent yields the extent, an in-range target is applied as is); variant B
only clamps below at `0` and applies any non-negative target unchanged. -/
theorem smoothScroll_clamp_amended (p m : Int) (hm : 0 ≤ m) :
    (0 ≤ smoothScrollA p m ∧ smoothScrollA p m ≤ m ∧
      (p < 0 → smoothScrollA p m = 0) ∧ (m < p → smoothScrollA p m = m) ∧
      (0 ≤ p → p ≤ m → smoothScrollA p m = p)) ∧
    (0 ≤ smoothScrollB p ∧ (p < 0 → smoothScrollB p = 0) ∧
      (0 ≤ p → smoothScrollB p = p)) := by
  unfold smoothScrollA smoothScrollB
  omega

/-- **C1** witness: the amended clamp at a concrete negative request. -/
theorem smoothScroll_clamp_amended_witness :
    smoothScrollA (-500) 1000 = 0 ∧ smoothScrollB (-500) = 0 :=
  ⟨(smoothScroll_clamp_amended (-500) 1000 (by decide)).1.2.2.1 (by decide),
   (smoothScroll_clamp_amended (-500) 1000 (by decide)).2.2.1 (by decide)⟩

/-- **C3** counterexample: the claim says both variants stop listening on a
`permission-denied` or `audio-capture` error kind.  In variant B, while
listening, both kinds leave the state unchanged — only `not-allowed` stops
(variant A does stop on all three). -/
theorem variantB_error_kinds_cex :
    (handleRecognitionErrorB listeningState "permission-denied").isListening = true ∧
    (handleRecognitionErrorB listeningState "audio-capture").isListening = true ∧
    (handleRecognitionErrorA listeningState "permission-denied").isListening = false ∧
    (handleRecognitionErrorA listeningState "audio-capture").isListening = false := by
  decide

/-- **C3** (amended): in variant A, `not-allowed`, `permission-denied` and
`audio-capture` all force a stop (state becomes inactive), while `no-speech`
and `network` are only logged and leave the state unchanged; in variant B
only `not-allowed` forces a stop, and every other error kind — including
`permission-denied` and `audio-capture` — leaves the state unchanged. -/
theorem error_handling_amended (s : CState) (k : String) :
    (k = "not-allowed" ∨ k = "permission-denied" ∨ k = "audio-capture" →
      handleRecognitionErrorA s k = stopRecognition s ∧
      (handleRecognitionErrorA s k).isListening = false) ∧
    (k = "no-speech" ∨ k = "network" → handleRecognitionErrorA s k = s) ∧
    (handleRecognitionErrorB s "not-allowed" = stopRecognition s ∧
      (handleRecognitionErrorB s "not-allowed").isListening = false) ∧
    (k ≠ "not-allowed" → handleRecognitionErrorB s k = s) := by
  refine ⟨?_, ?_, ?_, ?_⟩
  · rintro (rfl | rfl | rfl) <;> exact ⟨by simp [handleRecognitionErrorA], rfl⟩
  · rintro (rfl | rfl) <;> simp [handleRecognitionErrorA]
  · exact ⟨by simp [handleRecognitionErrorB], rfl⟩
  · intro hk
    unfold handleRecognitionErrorB
    rw [if_neg (by simp [hk])]

/-- **C3** witness: the amended behaviour at the concrete kinds of the
claim, in the Listening state. -/
theorem error_handling_amended_witness :
    (handleRecognitionErrorA listeningState "not-allowed").isListening = false ∧
    handleRecognitionErrorA listeningState "no-speech" = listeningState ∧
    handleRecognitionErrorB listeningState "network" = listeningState :=
  ⟨((error_handling_amended listeningState "not-allowed").1 (Or.inl rfl)).2,
   (error_handling_amended listeningState "no-speech").2.1 (Or.inl rfl),
   (error_handling_amended listeningState "network").2.2.2 (by decide)⟩

/-- **C5** counterexample: the claim says both variants drop empty tokens.
Variant B's filter only removes noise words, so the empty transcript — whose
whitespace split is the single empty token — cleans to `[""]`, not `[]`
(variant A does drop it). -/
theorem cleanTranscriptB_empty_token_cex :
    cleanTranscriptB "" = [""] ∧ cleanTranscriptB "" ≠ [] ∧
    cleanTranscriptA "" = [] := by decide

/-- **C5** (amended): both variants lower-case, trim and split on whitespace
runs; variant A then keeps exactly the tokens that are non-empty and not
noise words, while variant B keeps exactly the tokens that are not noise
words (empty tokens survive).  In both variants a transcript made only of
noise words cleans to nothing, and then the result handler executes no
command. -/
theorem cleanTranscript_amended (t w : String) (cfg : Config) (s : CState)
    (env : Nat → Int × Bool) :
    (w ∈ cleanTranscriptA t ↔
      w ∈ tokensOf t ∧ w.length > 0 ∧ noiseWordsA.contains w = false) ∧
    (w ∈ cleanTranscriptB t ↔ w ∈ tokensOf t ∧ noiseWordsB.contains w = false) ∧
    ((∀ u ∈ tokensOf t, noiseWordsA.contains u = true ∨ u = "") →
      cleanTranscriptA t = []) ∧
    ((∀ u ∈ tokensOf t, noiseWordsB.contains u = true) → cleanTranscriptB t = []) ∧
    (cleanTranscriptA t = [] → (handleRecognitionResultA cfg s t env).2 = []) ∧
    (cleanTranscriptB t = [] → (handleRecognitionResultB cfg s t env).2 = []) := by
  refine ⟨?_, ?_, ?_, ?_, ?_, ?_⟩
  · simp [cleanTranscriptA, List.mem_filter, and_assoc]
  · simp [cleanTranscriptB, List.mem_filter]
  · intro hall
    rw [cleanTranscriptA, List.filter_eq_nil_iff]
    intro u hu
    rcases hall u hu with hn | rfl
    · rw [hn]
      simp
    · simp
  · intro hall
    rw [cleanTranscriptB, List.filter_eq_nil_iff]
    intro u hu
    simpa using hall u hu
  · intro h
    unfold handleRecognitionResultA
    rw [h]
    rfl
  · intro h
    unfold handleRecognitionResultB
    rw [h]
    rfl

/-- **C2**: a matched command executes iff it differs from `lastCommand` or
strictly more than `debounceDelay` elapsed since `lastCommandTime`;
otherwise the match is suppressed with no state change.  After executing a
command at time `t`, the same command exactly `debounceDelay` later is
suppressed, and at any time strictly more than `debounceDelay` later it
passes the gate again. -/
theorem debounce_gate (cfg : Config) (s : CState) (cmd w : String) (now t t2 : Int) :
    (canExecuteCommand cfg s cmd now = true ↔
      cmd ≠ s.lastCommand ∨ now - s.lastCommandTime > cfg.debounceDelay) ∧
    (findMatchingCommandA w = some cmd →
      ((processCommandA cfg s w now false).2 = [cmd] ↔
        canExecuteCommand cfg s cmd now = true) ∧
      (canExecuteCommand cfg s cmd now = false →
        processCommandA cfg s w now false = (s, []))) ∧
    canExecuteCommand cfg (executeCommandA s cmd false t).1 cmd
      (t + cfg.debounceDelay) = false ∧
    (t2 - t > cfg.debounceDelay →
      canExecuteCommand cfg (executeCommandA s cmd false t).1 cmd t2 = true) := by
  refine ⟨?_, ?_, ?_, ?_⟩
  · simp [canExecuteCommand]
  · intro hm
    unfold processCommandA
    rw [hm]
    show ((if canExecuteCommand cfg s cmd now = true then
          executeCommandA s cmd false now else (s, [])).2 = [cmd] ↔
        canExecuteCommand cfg s cmd now = true) ∧
      (canExecuteCommand cfg s cmd now = false →
        (if canExecuteCommand cfg s cmd now = true then
          executeCommandA s cmd false now else (s, [])) = (s, []))
    constructor
    · cases hc : canExecuteCommand cfg s cmd now with
      | true =>
        rw [if_pos rfl]
        simp [executeCommandA]
      | false =>
        rw [if_neg (by simp)]
        simp
    · intro hc
      rw [hc]
      rw [if_neg (by simp)]
  · simp [canExecuteCommand, executeCommandA]
  · intro h
    simp only [canExecuteCommand, executeCommandA, Bool.false_eq_true, if_false]
    simp only [Bool.or_eq_true, decide_eq_true_eq]
    right
    omega

/-- **C2** witness: with debounce 500 and no prior command, `down` executes
at `t = 100`; the same command is suppressed at `t = 600` (exactly 500 ms
later) and passes again at `t = 1000`. -/
theorem debounce_gate_witness :
    (processCommandA cfgEx initState "down" 100 false).2 = ["down"] ∧
    canExecuteCommand cfgEx (executeCommandA initState "down" false 100).1 "down" 600 = false ∧
    canExecuteCommand cfgEx (executeCommandA initState "down" false 100).1 "down" 1000 = true :=
  ⟨((debounce_gate cfgEx initState "down" "down" 100 100 1000).2.1 (by decide)).1.mpr
      ((debounce_gate cfgEx initState "down" "down" 100 100 1000).1.mpr
        (Or.inl (by decide))),
   (debounce_gate cfgEx initState "down" "down" 100 100 1000).2.2.1,
   (debounce_gate cfgEx initState "down" "down" 100 100 1000).2.2.2 (by decide)⟩

/-- **C4**: `findMatchingCommand` returns the first command name, in the
fixed declaration order, whose case-insensitive word-boundary pattern
matches the token, and `none` when no name matches; an unmatched token is
discarded without executing anything.  In particular `download` matches no
command in either variant. -/
theorem findMatchingCommand_first_order (w : String) :
    (∀ c, findMatchingCommandA w = some c →
      reTestWB c w = true ∧
      ∃ l1 l2, commandNamesA = l1 ++ c :: l2 ∧ ∀ d ∈ l1, reTestWB d w = false) ∧
    (findMatchingCommandA w = none → ∀ c ∈ commandNamesA, reTestWB c w = false) ∧
    (∀ c, findMatchingCommandB w = some c →
      reTestWB c w = true ∧
      ∃ l1 l2, commandNamesB = l1 ++ c :: l2 ∧ ∀ d ∈ l1, reTestWB d w = false) ∧
    (findMatchingCommandB w = none → ∀ c ∈ commandNamesB, reTestWB c w = false) ∧
    (∀ cfg s now thr, findMatchingCommandA w = none →
      processCommandA cfg s w now thr = (s, [])) ∧
    findMatchingCommandA "download" = none ∧
    findMatchingCommandB "download" = none := by
  refine ⟨?_, ?_, ?_, ?_, ?_, by decide, by decide⟩
  · intro c hc
    exact find?_first_split _ commandNamesA c hc
  · intro hn c hc
    have := List.find?_eq_none.mp hn c hc
    simpa using this
  · intro c hc
    exact find?_first_split _ commandNamesB c hc
  · intro hn c hc
    have := List.find?_eq_none.mp hn c hc
    simpa using this
  · intro cfg s now thr hn
    unfold processCommandA
    rw [hn]

/-- **C4** witness: `up` matches itself as the first command in order, and a
token matching nothing is discarded with the state unchanged. -/
theorem findMatchingCommand_first_order_witness :
    reTestWB "up" "up" = true ∧
    processCommandA cfgEx initState "download" 0 false = (initState, []) :=
  ⟨((findMatchingCommand_first_order "up").1 "up" (by decide)).1,
   (findMatchingCommand_first_order "download").2.2.2.2.1 cfgEx initState 0 false
      (by decide)⟩

/-- **C6**: a throwing action is caught: the state is returned unchanged
(`lastCommand` / `lastCommandTime` are written only after the action call
returns), nothing is recorded as executed, no exception propagates (the
processing functions are total), and the remaining tokens of the transcript
are processed exactly as they would be from the unchanged state.  On a
non-throwing action the session state is updated to the executed command
and the current time. -/
theorem action_error_contained (cfg : Config) (s : CState) (cmd w : String)
    (now : Int) (rest : List (String × Int × Bool)) :
    executeCommandA s cmd true now = (s, []) ∧
    executeCommandB s cmd true now = (s, []) ∧
    (executeCommandA s cmd false now).1.lastCommand = cmd ∧
    (executeCommandA s cmd false now).1.lastCommandTime = now ∧
    (executeCommandA s cmd false now).2 = [cmd] ∧
    processCommandA cfg s w now true = (s, []) ∧
    processWordsA cfg s ((w, now, true) :: rest) = processWordsA cfg s rest := by
  have hp : processCommandA cfg s w now true = (s, []) := by
    unfold processCommandA
    cases hf : findMatchingCommandA w with
    | none => rfl
    | some c =>
      show (if canExecuteCommand cfg s c now = true then
          executeCommandA s c true now else (s, [])) = (s, [])
      cases hc : canExecuteCommand cfg s c now with
      | true =>
        rw [if_pos rfl]
        rfl
      | false =>
        rw [if_neg (by simp)]
  refine ⟨rfl, rfl, rfl, rfl, rfl, hp, ?_⟩
  show (let p := processCommandA cfg s w now true
        let q := processWordsA cfg p.1 rest
        (q.1, p.2 ++ q.2)) = processWordsA cfg s rest
  rw [hp]
  show ((processWordsA cfg s rest).1, [] ++ (processWordsA cfg s rest).2) =
    processWordsA cfg s rest
  simp

/-- **C5** witness: a noise-word-only transcript cleans to nothing and the
result handler executes no command, in both variants. -/
theorem cleanTranscript_amended_witness :
    cleanTranscriptA "uh um the" = [] ∧
    (handleRecognitionResultB cfgEx initState "uh um" (fun _ => (0, false))).2 = [] :=
  ⟨(cleanTranscript_amended "uh um the" "" cfgEx initState (fun _ => (0, false))).2.2.1
      (by decide),
   (cleanTranscript_amended "uh um" "" cfgEx initState (fun _ => (0, false))).2.2.2.2.2
      ((cleanTranscript_amended "uh um" "" cfgEx initState (fun _ => (0, false))).2.2.2.1
        (by decide))⟩

/-- **C7**: after any event trace there is at most one outstanding idle
timer, the stored handle refers to it (every scheduling cancelled the
previous timer first, and stop cancels it, so no stale timer can ever fire:
the only live timer is the most recently scheduled one), and when that
timer fires the manager calls stop — the state becomes inactive with no
timer left. -/
theorem idle_timer_single_outstanding (cfg : Config) (evs : List Event) :
    (run cfg evs).liveTimers.length ≤ 1 ∧
    (∀ i ∈ (run cfg evs).liveTimers, (run cfg evs).idleHandle = some i) ∧
    ((run cfg evs).liveTimers ≠ [] →
      (step cfg (run cfg evs) Event.fire).isListening = false ∧
      (step cfg (run cfg evs) Event.fire).liveTimers = []) := by
  have h := timerInv_run cfg evs
  rcases h with h | ⟨i, h1, h2⟩
  · refine ⟨by rw [h]; decide, ?_, ?_⟩
    · intro i hi
      rw [h] at hi
      cases hi
    · intro hne
      exact absurd h hne
  · refine ⟨by rw [h1]; simp, ?_, ?_⟩
    · intro j hj
      rw [h1] at hj
      rcases List.mem_cons.mp hj with rfl | hj
      · exact h2
      · cases hj
    · intro _
      show (fireTimer (run cfg evs)).isListening = false ∧
        (fireTimer (run cfg evs)).liveTimers = []
      unfold fireTimer
      rw [h1]
      show (stopRecognition { run cfg evs with liveTimers := [i].erase i }).isListening
          = false ∧
        (stopRecognition { run cfg evs with liveTimers := [i].erase i }).liveTimers = []
      have he : [i].erase i = ([] : List Nat) := by simp
      rw [he]
      exact ⟨rfl, (timerInv_stop _ (Or.inl rfl)).2⟩

/-- **C7** witness: after a successful start one timer is live, and firing
it stops the controller. -/
theorem idle_timer_single_outstanding_witness :
    (run cfgEx [Event.start false true]).liveTimers.length ≤ 1 ∧
    (run cfgEx [Event.start false true]).idleHandle = some 0 ∧
    (step cfgEx (run cfgEx [Event.start false true]) Event.fire).isListening = false :=
  ⟨(idle_timer_single_outstanding cfgEx [Event.start false true]).1,
   (idle_timer_single_outstanding cfgEx [Event.start false true]).2.1 0 (by decide),
   ((idle_timer_single_outstanding cfgEx [Event.start false true]).2.2 (by decide)).1⟩

/-- **C8**: an end-of-session notification while listening restarts the
session and the state is unchanged (still Listening); if the restart throws,
the handler falls back to stop and the state becomes inactive; an end
notification while not listening changes nothing.  The handler is identical
in both observed variants. -/
theorem end_restart_behavior (s : CState) (th : Bool) :
    (s.isListening = true → handleRecognitionEnd s false = s) ∧
    (s.isListening = true →
      handleRecognitionEnd s true = stopRecognition s ∧
      (handleRecognitionEnd s true).isListening = false) ∧
    (s.isListening = false → handleRecognitionEnd s th = s) := by
  refine ⟨?_, ?_, ?_⟩
  · intro h
    unfold handleRecognitionEnd
    rw [if_pos h]
    rw [if_neg (by simp)]
  · intro h
    unfold handleRecognitionEnd
    rw [if_pos h]
    exact ⟨rfl, rfl⟩
  · intro h
    unfold handleRecognitionEnd
    rw [if_neg (by simp [h])]

/-- **C8** witness: the three behaviours at concrete states. -/
theorem end_restart_behavior_witness :
    handleRecognitionEnd listeningState false = listeningState ∧
    (handleRecognitionEnd listeningState true).isListening = false ∧
    handleRecognitionEnd initState true = initState :=
  ⟨(end_restart_behavior listeningState false).1 rfl,
   ((end_restart_behavior listeningState true).2.1 rfl).2,
   (end_restart_behavior initState true).2.2 rfl⟩

/-- **C9**: the constructed configuration maps every key the caller supplied
to the caller's value (the trailing `...config` spread wins even over a
falsy supplied value) and every absent key to its default (10000 ms, 500 ms,
100 px, en-US); and no operation of the controller ever changes the
configuration: running any event trace alongside the configuration returns
it untouched. -/
theorem config_merge_defaults (inp : ConfigInput) (cfg : Config) (s : CState)
    (evs : List Event) :
    (∀ v, inp.idleDuration = some v → (buildConfig inp).idleDuration = v) ∧
    (inp.idleDuration = none → (buildConfig inp).idleDuration = 10000) ∧
    (∀ v, inp.debounceDelay = some v → (buildConfig inp).debounceDelay = v) ∧
    (inp.debounceDelay = none → (buildConfig inp).debounceDelay = 500) ∧
    (∀ v, inp.scrollAmount = some v → (buildConfig inp).scrollAmount = v) ∧
    (inp.scrollAmount = none → (buildConfig inp).scrollAmount = 100) ∧
    (∀ v, inp.lang = some v → (buildConfig inp).lang = v) ∧
    (inp.lang = none → (buildConfig inp).lang = "en-US") ∧
    (evs.foldl stepWithConfig (cfg, s)).1 = cfg := by
  refine ⟨?_, ?_, ?_, ?_, ?_, ?_, ?_, ?_, foldl_stepWithConfig_fst evs cfg s⟩ <;>
    first
      | (intro v h; simp [buildConfig, h])
      | (intro h; simp [buildConfig, jsOrNum, jsOrStr, h])

/-- **C9** witness: a caller object supplying three keys (one with the falsy
value 0, which the spread still preserves) and omitting one; and a concrete
trace leaving the configuration untouched. -/
theorem config_merge_defaults_witness :
    (buildConfig inpEx).idleDuration = 0 ∧
    (buildConfig inpEx).debounceDelay = 250 ∧
    (buildConfig inpEx).scrollAmount = 100 ∧
    (buildConfig inpEx).lang = "de-DE" ∧
    ([Event.start false true, Event.stop].foldl stepWithConfig
      (cfgEx, initState)).1 = cfgEx :=
  ⟨(config_merge_defaults inpEx cfgEx initState []).1 0 rfl,
   (config_merge_defaults inpEx cfgEx initState []).2.2.1 250 rfl,
   (config_merge_defaults inpEx cfgEx initState []).2.2.2.2.2.1 rfl,
   (config_merge_defaults inpEx cfgEx initState []).2.2.2.2.2.2.1 "de-DE" rfl,
   (config_merge_defaults inpEx cfgEx initState
      [Event.start false true, Event.stop]).2.2.2.2.2.2.2.2⟩

/-- **C10**: the two-word noise entry `you know` can never filter anything:
whitespace-run splitting produces tokens without whitespace, so no token
ever equals `you know`, while the single tokens `you` and `know` are not in
either noise set and always survive cleaning in both variants. -/
theorem noise_two_word_entry_dead (t : String) :
    noiseWordsA.contains "you know" = true ∧
    noiseWordsB.contains "you know" = true ∧
    (∀ w ∈ tokensOf t, w ≠ "you know") ∧
    ("you" ∈ tokensOf t → "you" ∈ cleanTranscriptA t ∧ "you" ∈ cleanTranscriptB t) ∧
    ("know" ∈ tokensOf t → "know" ∈ cleanTranscriptA t ∧ "know" ∈ cleanTranscriptB t) := by
  refine ⟨by decide, by decide, ?_, ?_, ?_⟩
  · intro w hw heq
    subst heq
    obtain ⟨l, hl, hmk⟩ := List.mem_map.mp hw
    have hdata : l = ("you know" : String).data := by
      have h2 := congrArg String.data hmk
      exact h2
    have hsp : (' ' : Char) ∈ l := by
      rw [hdata]
      decide
    have := mem_jsSplitWs_no_ws _ l hl ' ' hsp
    simp [isWs] at this
  · intro h
    exact ⟨List.mem_filter.mpr ⟨h, by decide⟩, List.mem_filter.mpr ⟨h, by decide⟩⟩
  · intro h
    exact ⟨List.mem_filter.mpr ⟨h, by decide⟩, List.mem_filter.mpr ⟨h, by decide⟩⟩

/-- **C10** witness: in the transcript "you know", both words survive
cleaning in both variants even though the set holds the entry `you know`. -/
theorem noise_two_word_entry_dead_witness :
    "you" ∈ cleanTranscriptA "you know" ∧ "know" ∈ cleanTranscriptB "you know" :=
  ⟨((noise_two_word_entry_dead "you know").2.2.2.1 (by decide)).1,
   ((noise_two_word_entry_dead "you know").2.2.2.2 (by decide)).2⟩

end VoiceControl
